import Mathlib

/-!
Verification development for the grafana-json-datasource plugin.

Shallow embedding of the query-execution pipeline of the repository:
the multi-API request manager (`src/multiApi.ts`: `MultiApiManager.get`,
`MultiApiManager.cachedGet`, `MultiApiManager.updateApis`,
`MultiApiManager._request`, `isSafeURL`) and the field-extraction and
frame-building logic (`src/types.ts`: `JsonDataSource.doRequest`,
`replaceMacros`, `groupBy`).

Strings are modelled as `List Char`.  JavaScript builtins used by the
source (`decodeURIComponent`, `encodeURIComponent`, `String.replace`
with the concrete regexes appearing in the source, `URLSearchParams`,
JS objects as insertion-ordered key/value records, `Map`, the
`memory-cache` package) are embedded explicitly below, restricted to
ASCII code points, which is the domain the verified claims exercise.
The HTTP transport (`getBackendSrv().fetch`) is abstracted as a pure
function `fetch : Request → V` supplied by the caller, together with
the JavaScript truthiness of response values as `truthy : V → Bool`,
consumed by the cache-hit test of `cachedGet`.
-/

/-- Strings of the embedded program: lists of characters. -/
abbrev Str := List Char

/-- Decodes a hexadecimal digit character to its numeric value
(assumes `isHexDigitChar` holds). -/
def hexVal (c : Char) : Nat :=
  if c.isDigit then c.toNat - 48
  else if 'a' ≤ c ∧ c ≤ 'f' then c.toNat - 87
  else c.toNat - 55

/-- Recognises an ASCII hexadecimal digit. -/
def isHexDigitChar (c : Char) : Bool :=
  c.isDigit || ('a' ≤ c && c ≤ 'f') || ('A' ≤ c && c ≤ 'F')

/-- Percent-decoding as performed by the JavaScript builtin
`decodeURIComponent`, modelled for ASCII code points: every `%hh`
sequence with two hexadecimal digits is decoded to the character with
code `hh`; other characters are kept.  (Multi-byte UTF-8 sequences and
the `URIError` raised by JavaScript on malformed input are outside the
modelled domain; the verified claims only exercise well-formed ASCII
input.) -/
def percentDecodeF : Nat → Str → Str
  | _, [] => []
  | 0, l => l
  | fuel + 1, c :: rest =>
    if c = '%' then
      match rest with
      | h1 :: h2 :: rest2 =>
        if isHexDigitChar h1 && isHexDigitChar h2 then
          Char.ofNat (16 * hexVal h1 + hexVal h2) :: percentDecodeF fuel rest2
        else '%' :: percentDecodeF fuel rest
      | _ => '%' :: percentDecodeF fuel rest
    else c :: percentDecodeF fuel rest

/-- Entry point of `percentDecodeF` with enough fuel to process the
whole input (the fuel only bounds the recursion depth, which is at most
the input length since every step consumes at least one character). -/
def percentDecode (l : Str) : Str :=
  percentDecodeF l.length l

/-- Substring test: does `pat` occur as a contiguous sublist of `l`?
Mirrors JavaScript `String.prototype.includes`. -/
def containsList (pat : Str) : Str → Bool
  | [] => pat.isEmpty
  | c :: rest => pat.isPrefixOf (c :: rest) || containsList pat rest

/-- Normalisation performed by `isSafeURL` before its checks: every
backslash is replaced by a slash (browsers interpret backslash as
slash), then the result is percent-decoded. -/
def normalizeUrl (origUrl : Str) : Str :=
  percentDecode (origUrl.map fun c => if c = '\\' then '/' else c)

/-- Embedding of `isSafeURL` (src/multiApi.ts, lines 215-235): after
backslash-to-slash replacement and percent-decoding, the URL is unsafe
if it ends with `/..`, contains `/../`, contains `/..?`, or contains a
tab character. -/
def isSafeURL (origUrl : Str) : Bool :=
  if List.isSuffixOf ("/..".toList) (normalizeUrl origUrl) then false
  else if containsList ("/../".toList) (normalizeUrl origUrl) then false
  else if containsList ("/..?".toList) (normalizeUrl origUrl) then false
  else if containsList ['\t'] (normalizeUrl origUrl) then false
  else true

/-- helper: `isSafeURL` as the negation of the disjunction of its four
rejection conditions. -/
theorem isSafeURL_eq_not_or (u : Str) :
    isSafeURL u =
      !(List.isSuffixOf ("/..".toList) (normalizeUrl u) ||
        containsList ("/../".toList) (normalizeUrl u) ||
        containsList ("/..?".toList) (normalizeUrl u) ||
        containsList ['\t'] (normalizeUrl u)) := by
  unfold isSafeURL
  cases h1 : List.isSuffixOf ("/..".toList) (normalizeUrl u) <;>
    cases h2 : containsList ("/../".toList) (normalizeUrl u) <;>
      cases h3 : containsList ("/..?".toList) (normalizeUrl u) <;>
        cases h4 : containsList ['\t'] (normalizeUrl u) <;>
          rfl

/-- Insertion into a JavaScript object modelled as an insertion-ordered
association list: an existing key keeps its position and gets the new
value; a new key is appended.  Mirrors `obj[key] = value` (integer-like
key reordering of JS objects is outside the modelled domain; the keys
produced by the source are non-numeric). -/
def recordInsert (m : List (Str × Str)) (k v : Str) : List (Str × Str) :=
  if m.any (fun p => p.1 = k) then
    m.map fun p => if p.1 = k then (k, v) else p
  else m ++ [(k, v)]

/-- Lookup in a record (first entry with the key). -/
def recordLookup (k : Str) (m : List (Str × Str)) : Option Str :=
  (m.find? fun p => p.1 = k).map fun p => p.2

/-- Number of entries of a record carrying the given key. -/
def countKey (k : Str) (m : List (Str × Str)) : Nat :=
  m.countP fun p => p.1 = k

/-- Digit character for a value below ten. -/
def digitChar (d : Nat) : Char :=
  Char.ofNat (48 + d % 10)

/-- Fuel-bounded decimal digit expansion (most significant first). -/
def natDigitsF : Nat → Nat → List Char
  | 0, _ => []
  | fuel + 1, m =>
    if m < 10 then [digitChar m]
    else natDigitsF fuel (m / 10) ++ [digitChar (m % 10)]

/-- Decimal representation of a natural number as produced by
JavaScript `Number.prototype.toString` on a non-negative integer. -/
def natDigits (n : Nat) : List Char :=
  natDigitsF (n + 1) n

/-- Positional disambiguation applied by `MultiApiManager.get`
(src/multiApi.ts, lines 71-80): a call-supplied query parameter key is
suffixed with `__` followed by the decimal position counter, so that
duplicate keys become distinct record keys. -/
def suffixParamKey (key : Str) (i : Nat) : Str :=
  key ++ '_' :: '_' :: natDigits i

/-- Recognises the regex `__\d+$` anchored at the head of the list:
two underscores followed by one or more digits running to the end. -/
def matchesPosSuffix : Str → Bool
  | a :: b :: ds => a = '_' && b = '_' && !ds.isEmpty && ds.all Char.isDigit
  | _ => false

/-- Embedding of `key.replace(/__\d+$/, '')`
(src/multiApi.ts, line 191): the leftmost position whose remainder
matches `__\d+$` is removed (JavaScript `String.replace` removes the
leftmost match). -/
def stripParamSuffix : Str → Str
  | [] => []
  | c :: rest =>
    if matchesPosSuffix (c :: rest) then []
    else c :: stripParamSuffix rest

/-- helper: `digitChar` always yields a decimal digit character. -/
theorem digitChar_isDigit (d : Nat) : (digitChar d).isDigit = true := by
  unfold digitChar
  have h : d % 10 < 10 := Nat.mod_lt _ (by omega)
  interval_cases h' : d % 10 <;> decide

/-- helper: with enough fuel, the digit expansion is nonempty and
consists of digit characters only. -/
theorem natDigitsF_spec (fuel m : Nat) (h : m < 10 ^ (fuel + 1)) :
    natDigitsF (fuel + 1) m ≠ [] ∧
      (natDigitsF (fuel + 1) m).all Char.isDigit = true := by
  induction fuel generalizing m with
  | zero =>
    have hm : m < 10 := by simpa using h
    constructor
    · simp [natDigitsF, hm]
    · simp [natDigitsF, hm, digitChar_isDigit]
  | succ f ih =>
    by_cases hm : m < 10
    · constructor
      · simp [natDigitsF, hm]
      · simp [natDigitsF, hm, digitChar_isDigit]
    · have hdiv : m / 10 < 10 ^ (f + 1) := by
        rw [Nat.div_lt_iff_lt_mul (by omega)]
        calc m < 10 ^ (f + 1 + 1) := h
        _ = 10 ^ (f + 1) * 10 := by ring
      obtain ⟨hne, hall⟩ := ih (m / 10) hdiv
      have hstep : natDigitsF (f + 1 + 1) m =
          natDigitsF (f + 1) (m / 10) ++ [digitChar (m % 10)] := by
        conv_lhs => rw [natDigitsF]
        rw [if_neg hm]
      constructor
      · rw [hstep]; simp
      · rw [hstep, List.all_append]
        simp [hall, digitChar_isDigit]

/-- helper: `natDigits` is nonempty and consists of digit characters. -/
theorem natDigits_spec (n : Nat) :
    natDigits n ≠ [] ∧ (natDigits n).all Char.isDigit = true := by
  unfold natDigits
  exact natDigitsF_spec n n (Nat.lt_pow_self (by omega) n |>.trans_le
    (Nat.pow_le_pow_right (by omega) (Nat.le_succ n)))

/-- helper: a list containing an underscore is not all digits. -/
theorem all_digits_false_of_underscore (l₁ l₂ : Str) :
    (l₁ ++ '_' :: l₂).all Char.isDigit = false := by
  induction l₁ with
  | nil => simp
  | cons c rest ih =>
    simp only [List.cons_append, List.all_cons]
    cases h : c.isDigit <;> simp [ih]

/-- helper: appending a positional suffix and stripping it is the
identity, for any nonempty all-digit suffix. -/
theorem stripParamSuffix_append (key ds : Str) (hne : ds ≠ [])
    (hdig : ds.all Char.isDigit = true) :
    stripParamSuffix (key ++ '_' :: '_' :: ds) = key := by
  induction key with
  | nil =>
    simp only [List.nil_append, stripParamSuffix]
    rw [if_pos]
    simp [matchesPosSuffix, hne, hdig]
  | cons c rest ih =>
    have hm : matchesPosSuffix (c :: (rest ++ '_' :: '_' :: ds)) = false := by
      cases rest with
      | nil =>
        simp only [List.nil_append, matchesPosSuffix]
        rw [show ('_' :: ds) = ([] ++ '_' :: ds) from rfl,
          all_digits_false_of_underscore]
        simp
      | cons c2 rest2 =>
        simp only [List.cons_append, matchesPosSuffix]
        rw [all_digits_false_of_underscore rest2 ('_' :: ds)]
        simp
    have hunfold : stripParamSuffix (c :: (rest ++ '_' :: '_' :: ds)) =
        c :: stripParamSuffix (rest ++ '_' :: '_' :: ds) := by
      rw [stripParamSuffix, if_neg]
      simp [hm]
    rw [List.cons_append, hunfold, ih]

/-- Scanner of JavaScript global string replacement
`str.replace(/pat/g, rep)` for a fixed literal pattern: `skip` counts
characters of a just-replaced match that must still be consumed; at
`skip = 0`, a position where the pattern is a prefix emits the
replacement and skips the match, otherwise the character is kept.
Matches are found left to right and do not overlap, and the replacement
text is not rescanned, exactly as JavaScript `String.replace` with a
global literal-text regex behaves. -/
def replaceAllAux (pat rep : Str) : Nat → Str → Str
  | _, [] => []
  | skip + 1, _ :: rest => replaceAllAux pat rep skip rest
  | 0, c :: rest =>
    if pat.isPrefixOf (c :: rest) then
      rep ++ replaceAllAux pat rep (pat.length - 1) rest
    else c :: replaceAllAux pat rep 0 rest

/-- Global replacement of every non-overlapping occurrence of a
nonempty literal pattern. -/
def replaceAll (pat rep l : Str) : Str :=
  if pat.isEmpty then l else replaceAllAux pat rep 0 l

/-- Time range as consumed by `replaceMacros` (src/types.ts): the
source calls `range.from.unix()` / `range.to.unix()` (epoch seconds)
and `range.from.toISOString()` / `range.to.toISOString()`; the two ISO
renderings are carried as opaque strings. -/
structure TimeRangeM where
  fromUnix : Nat
  toUnix : Nat
  fromISO : Str
  toISO : Str

/-- Embedding of `replaceMacros` (src/types.ts, lines 530-539): when a
time range is supplied the four time macros are substituted globally,
in the source's order; without a range the text is returned
unchanged. -/
def replaceMacros (s : Str) : Option TimeRangeM → Str
  | none => s
  | some r =>
    replaceAll ("$__isoTo()".toList) r.toISO
      (replaceAll ("$__isoFrom()".toList) r.fromISO
        (replaceAll ("$__unixEpochTo()".toList) (natDigits r.toUnix)
          (replaceAll ("$__unixEpochFrom()".toList) (natDigits r.fromUnix) s)))

/-- helper: if the pattern does not occur in the input, scanning
replaces nothing. -/
theorem replaceAllAux_of_not_contains (pat rep : Str) (l : Str)
    (h : containsList pat l = false) : replaceAllAux pat rep 0 l = l := by
  induction l with
  | nil => rfl
  | cons c rest ih =>
    simp only [containsList, Bool.or_eq_false_iff] at h
    rw [replaceAllAux, if_neg (by simp [h.1]), ih h.2]

/-- helper: replacement leaves a string without occurrences of the
pattern unchanged. -/
theorem replaceAll_of_not_contains (pat rep l : Str)
    (h : containsList pat l = false) : replaceAll pat rep l = l := by
  unfold replaceAll
  split
  · rfl
  · exact replaceAllAux_of_not_contains pat rep l h

/-- JSON scalar cell values flowing through extraction and grouping
(compared with JavaScript strict equality `===`, which on these scalar
shapes coincides with structural equality). -/
inductive JVal where
  | jstr (s : Str)
  | jnum (n : Int)
  | jbool (b : Bool)
  | jnull
deriving DecidableEq, Repr

/-- Field of a data frame: a named column of values.  Mirrors the
`{ name, values }` part of a Grafana `Field`; the `type` and `config`
decorations are not needed by the verified claims. -/
structure FrameField where
  name : Str
  values : List JVal
deriving DecidableEq, Repr

/-- Data frame: named collection of columns.  The input frame of a
query is named after `refId` (a string); `groupBy` output frames are
named after the group's value, which need not be a string, hence
`name : JVal`. -/
structure Frame where
  name : JVal
  refId : Str
  fields : List FrameField
deriving DecidableEq, Repr

/-- Insertion step of a JavaScript `Set`: a value already present is
ignored, a new value is appended (JS `Set` iterates in insertion
order). -/
def insertUnique (acc : List JVal) (v : JVal) : List JVal :=
  if v ∈ acc then acc else acc ++ [v]

/-- Distinct values of a list in order of first occurrence, as produced
by `new Set(xs)` iterated in JavaScript. -/
def uniqueList (l : List JVal) : List JVal :=
  l.foldl insertUnique []

/-- Values of a column restricted to the rows where the grouping column
holds the given value.  Mirrors
`field.values.toArray().filter((_, idx) => groupByField.values.get(idx) === groupByValue)`
(src/types.ts, lines 555-559): indices beyond the grouping column yield
JS `undefined`, which never equals a `JVal`, so truncation by `zip` is
faithful. -/
def filterByGroup (vals col : List JVal) (gv : JVal) : List JVal :=
  ((vals.zip col).filter fun p => p.2 = gv).map fun p => p.1

/-- Embedding of `groupBy` (src/types.ts, lines 541-570): if no field
carries the requested name the frame is returned alone; otherwise one
frame per distinct value of the grouping column (insertion order of
first occurrence), named after the value, containing every field except
the grouping one with its values restricted to the group's rows. -/
def groupBy (frame : Frame) (fieldName : Str) : List Frame :=
  match frame.fields.find? fun f => f.name = fieldName with
  | none => [frame]
  | some gf =>
    (uniqueList gf.values).map fun gv =>
      { name := gv
        refId := frame.refId
        fields := (frame.fields.filter fun f => ¬ f.name = gf.name).map
          fun f => { f with values := filterByGroup f.values gf.values gv } }

/-- helper: membership in the accumulator after a `Set` insertion. -/
theorem mem_insertUnique (acc : List JVal) (v x : JVal) :
    x ∈ insertUnique acc v ↔ x ∈ acc ∨ x = v := by
  unfold insertUnique
  split
  · constructor
    · exact fun h => Or.inl h
    · rintro (h | rfl)
      · exact h
      · assumption
  · simp

/-- helper: membership after folding `Set` insertions. -/
theorem mem_foldl_insertUnique (l : List JVal) (acc : List JVal) (x : JVal) :
    x ∈ l.foldl insertUnique acc ↔ x ∈ acc ∨ x ∈ l := by
  induction l generalizing acc with
  | nil => simp
  | cons a rest ih =>
    rw [List.foldl_cons, ih, mem_insertUnique]
    simp only [List.mem_cons]
    tauto

/-- helper: membership in the distinct-value list. -/
theorem mem_uniqueList (l : List JVal) (x : JVal) :
    x ∈ uniqueList l ↔ x ∈ l := by
  rw [uniqueList, mem_foldl_insertUnique]
  simp

/-- helper: folding insertions of values already present leaves the
accumulator unchanged. -/
theorem foldl_insertUnique_of_mem (l acc : List JVal)
    (h : ∀ x ∈ l, x ∈ acc) : l.foldl insertUnique acc = acc := by
  induction l with
  | nil => rfl
  | cons a rest ih =>
    rw [List.foldl_cons, insertUnique, if_pos (h a (by simp))]
    exact ih fun x hx => h x (by simp [hx])

/-- helper: the distinct-value list has at most one element exactly
when all elements of the list are equal. -/
theorem uniqueList_length_le_one_iff (l : List JVal) :
    (uniqueList l).length ≤ 1 ↔ ∀ x ∈ l, ∀ y ∈ l, x = y := by
  constructor
  · intro h x hx y hy
    have hx' := (mem_uniqueList l x).mpr hx
    have hy' := (mem_uniqueList l y).mpr hy
    match hu : uniqueList l with
    | [] => rw [hu] at hx'; simp at hx'
    | [a] =>
      rw [hu] at hx' hy'
      simp only [List.mem_singleton] at hx' hy'
      rw [hx', hy']
    | a :: b :: rest => rw [hu] at h; simp at h
  · intro h
    cases hl : l with
    | nil => simp [uniqueList]
    | cons a rest =>
      have : uniqueList (a :: rest) = [a] := by
        rw [uniqueList, List.foldl_cons]
        rw [show insertUnique [] a = [a] from rfl]
        exact foldl_insertUnique_of_mem rest [a] fun x hx => by
          rw [hl] at h
          simp [h x (by simp [hx]) a (by simp)]
      rw [this]
      simp

/-- Field specification of a query (src/types.ts `JsonField`): optional
output name, the extraction expression (`jsonPath`), and the selected
dialect (`language: 'jsonata'` versus the default JSONPath). -/
structure JsonField where
  name : Option Str
  jsonPath : Str
  isJsonata : Bool
deriving DecidableEq, Repr

/-- Sequential effectful map over `Except`, mirroring a JavaScript
`Array.prototype.map` whose callback may throw: the first thrown error
aborts the whole map and propagates unchanged. -/
def mapExcept (f : α → Except Str β) : List α → Except Str (List β)
  | [] => .ok []
  | a :: l =>
    match f a with
    | .error e => .error e
    | .ok b =>
      match mapExcept f l with
      | .error e => .error e
      | .ok bs => .ok (b :: bs)

/-- Extraction step of `JsonDataSource.doRequest` (src/types.ts, lines
368-429): fields with an empty expression are skipped
(`filter((field) => field.jsonPath)`), the remaining fields are
evaluated in order.  The evaluator — `jsonata(...).evaluate` or the
JSONPath engine, both external to this component — is abstracted as a
function that either yields the extracted column or throws; `doRequest`
installs no handler around it. -/
def extractAll (eval : JsonField → Except Str FrameField)
    (fields : List JsonField) : Except Str (List FrameField) :=
  mapExcept eval (fields.filter fun f => !f.jsonPath.isEmpty)

/-- Error message thrown by `doRequest` when extracted columns disagree
in length (src/types.ts, line 436). -/
def lengthMismatchMsg : Str := "Fields have different lengths".toList

/-- Length validation of `doRequest` (src/types.ts, lines 431-437): the
number of distinct column lengths must be at most one. -/
def checkLengths (fields : List FrameField) : Except Str Unit :=
  if (uniqueList ((fields.map fun f => f.values.length).map
      fun n => JVal.jnum n)).length > 1 then
    .error lengthMismatchMsg
  else .ok ()

/-- Frame assembly of `doRequest` (src/types.ts, lines 431-454): after
the length check, the extracted fields form one frame named after
`refId`, split by `groupBy` when a non-empty grouping column is
requested (`query.experimentalGroupByField` is truthy exactly when it
is a non-empty string).  The `experimentalMetricField` display-name
decoration only rewrites field `config`, which is outside the modelled
frame shape. -/
def buildFrames (refId : Str) (fields : List FrameField)
    (groupByName : Option Str) : Except Str (List Frame) :=
  match checkLengths fields with
  | .error e => .error e
  | .ok _ =>
    let frame : Frame := { name := .jstr refId, refId := refId, fields := fields }
    match groupByName with
    | some n => if n.isEmpty then .ok [frame] else .ok (groupBy frame n)
    | none => .ok [frame]

/-- Post-response pipeline of `JsonDataSource.doRequest`: extract every
declared field, then validate lengths and build the frames. -/
def doRequestModel (eval : JsonField → Except Str FrameField)
    (refId : Str) (fields : List JsonField) (groupByName : Option Str) :
    Except Str (List Frame) :=
  match extractAll eval fields with
  | .error e => .error e
  | .ok fs => buildFrames refId fs groupByName

/-- helper: the length check passes exactly when all columns have equal
length. -/
theorem checkLengths_ok_iff (fields : List FrameField) :
    checkLengths fields = .ok () ↔
      ∀ f ∈ fields, ∀ g ∈ fields, f.values.length = g.values.length := by
  unfold checkLengths
  constructor
  · intro h f hf g hg
    have hle : ((uniqueList ((fields.map fun f => f.values.length).map
        fun n => JVal.jnum n)).length ≤ 1) := by
      by_contra hgt
      rw [if_pos (by omega)] at h
      exact absurd h (by simp)
    rw [uniqueList_length_le_one_iff] at hle
    have h1 : JVal.jnum (f.values.length : Int) ∈
        (fields.map fun f => f.values.length).map fun n => JVal.jnum n :=
      List.mem_map_of_mem _ (List.mem_map_of_mem _ hf)
    have h2 : JVal.jnum (g.values.length : Int) ∈
        (fields.map fun f => f.values.length).map fun n => JVal.jnum n :=
      List.mem_map_of_mem _ (List.mem_map_of_mem _ hg)
    have heq := hle _ h1 _ h2
    simp only [JVal.jnum.injEq] at heq
    exact_mod_cast heq
  · intro h
    rw [if_neg]
    simp only [gt_iff_lt, not_lt]
    rw [uniqueList_length_le_one_iff]
    rintro x hx y hy
    simp only [List.mem_map] at hx hy
    obtain ⟨n, ⟨f, hf, rfl⟩, rfl⟩ := hx
    obtain ⟨m, ⟨g, hg, rfl⟩, rfl⟩ := hy
    rw [h f hf g hg]

/-- API connection configuration (src/types.ts `ApiConfiguration`).
The `requestTypes` decoration is not consulted by any modelled
operation and is omitted. -/
structure ApiConfiguration where
  id : Str
  name : Str
  url : Str
  queryParams : Option Str
  headers : List (Str × Str)
deriving DecidableEq, Repr

/-- Errors thrown by `MultiApiManager` operations:
`unknownApi id` stands for `new Error("API with ID '<id>' not found")`
and `unsafeUrl` for `new Error('URL path contains unsafe characters')`. -/
inductive ApiError where
  | unknownApi (id : Str)
  | unsafeUrl
deriving DecidableEq, Repr

/-- HTTP request handed to the transport
(`BackendSrvRequest` fields set by `_request`). -/
structure Request where
  url : Str
  method : Str
  headers : List (Str × Str)
  data : Option Str
deriving DecidableEq, Repr

/-- Splits a list on a separator character. -/
def splitOnChar (sep : Char) (acc : Str) : Str → List Str
  | [] => [acc.reverse]
  | c :: rest =>
    if c = sep then acc.reverse :: splitOnChar sep [] rest
    else splitOnChar sep (c :: acc) rest

/-- Splits a query segment at its first `=` (no `=` gives an empty
value), as `URLSearchParams` does. -/
def splitFirstEq (acc : Str) : Str → Str × Str
  | [] => (acc.reverse, [])
  | c :: rest =>
    if c = '=' then (acc.reverse, rest)
    else splitFirstEq (c :: acc) rest

/-- Component decoding of `URLSearchParams`: `+` becomes a space, then
percent-decoding. -/
def decodeQueryComponent (s : Str) : Str :=
  percentDecode (s.map fun c => if c = '+' then ' ' else c)

/-- Parsing of an API's default query-parameter fragment by
`new URLSearchParams('?' + api.queryParams)` (src/multiApi.ts, lines
64-69): the leading `?` is stripped, segments are split on `&`, empty
segments are skipped, each segment splits at its first `=`, and both
sides are component-decoded. -/
def parseQueryString (qp : Str) : List (Str × Str) :=
  ((splitOnChar '&' [] qp).filter fun seg => !seg.isEmpty).map fun seg =>
    let p := splitFirstEq [] seg
    (decodeQueryComponent p.1, decodeQueryComponent p.2)

/-- Fuel-bounded scanner for the slash deduplication regex
`fullUrl.replace(/([^:]\/)\/+/g, '$1')` (src/multiApi.ts, line 184):
a non-colon character followed by at least two slashes is replaced by
that character and a single slash, consuming the whole greedy slash
run; scanning then resumes after the run. -/
def dedupSlashesF : Nat → Str → Str
  | 0, l => l
  | _ + 1, [] => []
  | _ + 1, [c] => [c]
  | fuel + 1, a :: b :: rest =>
    if a ≠ ':' ∧ b = '/' ∧ rest.head? = some '/' then
      a :: '/' :: dedupSlashesF fuel (rest.dropWhile fun c => c = '/')
    else a :: dedupSlashesF fuel (b :: rest)

/-- Slash deduplication with enough fuel for the whole input. -/
def dedupSlashes (l : Str) : Str :=
  dedupSlashesF l.length l

/-- Characters kept verbatim by JavaScript `encodeURIComponent`. -/
def isUnreservedURIChar (c : Char) : Bool :=
  c.isAlphanum || c = '-' || c = '_' || c = '.' || c = '!' || c = '~' ||
    c = '*' || c = '\'' || c = '(' || c = ')'

/-- Uppercase hexadecimal digit for a value below sixteen. -/
def hexDigitUpper (n : Nat) : Char :=
  if n < 10 then Char.ofNat (48 + n) else Char.ofNat (55 + n)

/-- Embedding of JavaScript `encodeURIComponent` for ASCII code
points: unreserved characters are kept, others become `%HH` with
uppercase hexadecimal digits. -/
def encodeURIComponent (s : Str) : Str :=
  s.foldr
    (fun c acc =>
      (if isUnreservedURIChar c then [c]
       else ['%', hexDigitUpper (c.toNat / 16 % 16), hexDigitUpper (c.toNat % 16)]) ++ acc)
    []

/-- Serialisation of key/value pairs into an `&`-joined,
`=`-separated, percent-encoded query string. -/
def encodePairs (ps : List (Str × Str)) : Str :=
  List.intercalate ['&']
    (ps.map fun p => encodeURIComponent p.1 ++ '=' :: encodeURIComponent p.2)

/-- URL construction of `_request` (src/multiApi.ts, lines 180-193):
base URL plus path, slashes deduplicated, and — when the parameter
record is nonempty — the query string appended after `?` (or `&` if
the URL already contains `?`), with the positional `__<n>` suffix
stripped from every key before encoding. -/
def buildFullUrl (api : ApiConfiguration) (path : Str)
    (params : List (Str × Str)) : Str :=
  let u := dedupSlashes (api.url ++ path)
  if params.isEmpty then u
  else
    u ++ (if u.any fun c => c = '?' then '&' else '?') ::
      encodePairs (params.map fun p => (stripParamSuffix p.1, p.2))

/-- Cache key construction of `cachedGet` (src/multiApi.ts, lines
132-139): raw base URL plus path (no slash deduplication), and — when
the call-supplied parameter list is nonempty — the encoded pairs under
their original keys (no suffixing), appended after `?` or `&`. -/
def cacheKey (api : ApiConfiguration) (path : Str)
    (params : List (Str × Str)) : Str :=
  let base := api.url ++ path
  if params.isEmpty then base
  else base ++ (if base.any fun c => c = '?' then '&' else '?') :: encodePairs params

namespace MultiApiManager

/-- Insertion into the API `Map` keyed by `api.id`: an existing id
keeps its position and receives the new configuration, a new id is
appended (JavaScript `Map.set` semantics). -/
def setApi (m : List ApiConfiguration) (api : ApiConfiguration) :
    List ApiConfiguration :=
  if m.any fun a => a.id = api.id then
    m.map fun a => if a.id = api.id then api else a
  else m ++ [api]

/-- Rebuilding the API map from a configuration list, as the
constructor and `updateApis` do (`clear` then `set` for each entry). -/
def buildApis (apis : List ApiConfiguration) : List ApiConfiguration :=
  apis.foldl setApi []

/-- Embedding of `MultiApiManager.getApi` (src/multiApi.ts, lines
34-36). -/
def getApi (apis : List ApiConfiguration) (apiId : Str) :
    Option ApiConfiguration :=
  apis.find? fun a => a.id = apiId

/-- Mutable state of a `MultiApiManager` instance: the response cache
(key, value, absolute expiry in milliseconds), the API map, and the
duration observed by the previous `cachedGet` call. -/
structure State (V : Type) where
  cacheStore : List (Str × V × Nat)
  apis : List ApiConfiguration
  lastCacheDuration : Option Nat
deriving Repr

/-- Embedding of `MultiApiManager.updateApis` (src/multiApi.ts, lines
24-29): the API map is cleared and rebuilt; nothing else is touched. -/
def updateApis (st : State V) (apis : List ApiConfiguration) : State V :=
  { st with apis := buildApis apis }

/-- Read from the `memory-cache` store: an entry is returned while its
expiry has not passed (`expire >= Date.now()`), otherwise the lookup
misses. -/
def cacheRead (now : Nat) (key : Str) (store : List (Str × V × Nat)) :
    Option V :=
  match store.find? fun e => e.1 = key with
  | some e => if now ≤ e.2.2 then some e.2.1 else none
  | none => none

/-- Write to the `memory-cache` store (`put(key, value, ttl)` records
expiry `ttl + Date.now()`): an existing key is overwritten in place, a
new key is appended. -/
def cachePut (key : Str) (v : V) (expire : Nat)
    (store : List (Str × V × Nat)) : List (Str × V × Nat) :=
  if store.any fun e => e.1 = key then
    store.map fun e => if e.1 = key then (key, v, expire) else e
  else store ++ [(key, v, expire)]

/-- Deletion from the `memory-cache` store. -/
def cacheDel (key : Str) (store : List (Str × V × Nat)) :
    List (Str × V × Nat) :=
  store.filter fun e => !(e.1 = key : Bool)

/-- Record of default parameters obtained from the API's query-string
fragment, as `MultiApiManager.get` builds it (src/multiApi.ts, lines
61-69): nothing when `api.queryParams` is falsy, otherwise the parsed
pairs inserted in order into a fresh record. -/
def defaultParamsRecord (api : ApiConfiguration) : List (Str × Str) :=
  match api.queryParams with
  | some qp =>
    if qp.isEmpty then []
    else (parseQueryString qp).foldl (fun m p => recordInsert m p.1 p.2) []
  | none => []

/-- Addition of call-supplied parameters to the record
(src/multiApi.ts, lines 71-80): every pair with a truthy (non-empty)
key is inserted under its positionally suffixed key, and the counter
advances only for such pairs. -/
def addCallParams (m : List (Str × Str)) (ps : List (Str × Str)) :
    List (Str × Str) :=
  (ps.foldl
    (fun acc p =>
      if p.1.isEmpty then acc
      else (recordInsert acc.1 (suffixParamKey p.1 acc.2) p.2, acc.2 + 1))
    (m, 0)).1

/-- Header merge of `MultiApiManager.get` (src/multiApi.ts, line 83):
API-level default headers followed by call-supplied headers. -/
def mergeHeaders (apiHeaders callHeaders : List (Str × Str)) :
    List (Str × Str) :=
  apiHeaders ++ callHeaders

/-- Header record built by `_request` (src/multiApi.ts, lines
170-178): starts from the `Content-Type` default, then inserts every
merged header with a truthy key. -/
def buildRecordHeaders (headers : List (Str × Str)) : List (Str × Str) :=
  (headers.filter fun p => !p.1.isEmpty).foldl
    (fun m p => recordInsert m p.1 p.2)
    [("Content-Type".toList, "application/json".toList)]

/-- Embedding of `MultiApiManager._request` (src/multiApi.ts, lines
162-212): builds the header record and the full URL, validates URL
safety, omits the body for GET requests (or when falsy), and hands the
request to the transport `fetch`.  The transport's response `data` is
whatever `fetch` returns. -/
def _request (fetch : Request → V) (api : ApiConfiguration)
    (method path : Str) (params : List (Str × Str))
    (headers : List (Str × Str)) (data : Option Str) : Except ApiError V :=
  let fullUrl := buildFullUrl api path params
  if isSafeURL fullUrl then
    .ok (fetch
      { url := fullUrl
        method := method
        headers := buildRecordHeaders headers
        data :=
          match data with
          | some d => if ¬ method = "GET".toList ∧ ¬ d.isEmpty then some d else none
          | none => none })
  else .error .unsafeUrl

/-- Embedding of `MultiApiManager.get` (src/multiApi.ts, lines
48-88): resolves the API (throwing `unknownApi` when absent), builds
the parameter record from API defaults plus suffixed call parameters,
merges headers, and issues `_request`. -/
def get (fetch : Request → V) (apis : List ApiConfiguration)
    (apiId method path : Str) (params headers : List (Str × Str))
    (body : Option Str) : Except ApiError V :=
  match getApi apis apiId with
  | none => .error (.unknownApi apiId)
  | some api =>
    _request fetch api method path
      (addCallParams (defaultParamsRecord api) params)
      (mergeHeaders api.headers headers) body

/-- Embedding of `MultiApiManager.cachedGet` (src/multiApi.ts, lines
114-156).  A falsy duration bypasses the cache entirely.  Otherwise the
cache key is computed from the raw base URL, path, and call-supplied
parameters; the key is evicted when the duration differs from the one
observed by the previous `cachedGet` call (a single instance-wide
field, not a per-key record).  The hit test on line 147 is
`if (cachedItem)` — a JavaScript truthiness test on the stored
response, not a presence test: a live entry is served without dispatch
only when its stored response is truthy, while a stored falsy response
(JSON `null`, `0`, `false`, the empty string) falls through exactly
like a miss and `get` dispatches again, overwriting the entry.  Since
the response type `V` is abstract here, its JavaScript truthiness is
supplied as the `truthy` parameter.  On a miss `get` dispatches and the
result is stored with expiry `now + duration * 1000`.  The returned
`Bool` records whether the transport was dispatched. -/
def cachedGet (truthy : V → Bool) (fetch : Request → V) (now : Nat)
    (st : State V) (apiId : Str) (cacheDurationSeconds : Nat)
    (method path : Str) (params headers : List (Str × Str))
    (body : Option Str) : Except ApiError (V × Bool × State V) :=
  if cacheDurationSeconds = 0 then
    match get fetch st.apis apiId method path params headers body with
    | .error e => .error e
    | .ok v => .ok (v, true, st)
  else
    match getApi st.apis apiId with
    | none => .error (.unknownApi apiId)
    | some api =>
      let key := cacheKey api path params
      let store1 :=
        if st.lastCacheDuration = some cacheDurationSeconds then st.cacheStore
        else cacheDel key st.cacheStore
      match cacheRead now key store1 with
      | some cachedItem =>
        if truthy cachedItem then
          .ok (cachedItem, false,
            { st with cacheStore := store1,
                      lastCacheDuration := some cacheDurationSeconds })
        else
          match get fetch st.apis apiId method path params headers body with
          | .error e => .error e
          | .ok v =>
            .ok (v, true,
              { st with
                  cacheStore :=
                    cachePut key v (now + cacheDurationSeconds * 1000) store1,
                  lastCacheDuration := some cacheDurationSeconds })
      | none =>
        match get fetch st.apis apiId method path params headers body with
        | .error e => .error e
        | .ok v =>
          .ok (v, true,
            { st with
                cacheStore :=
                  cachePut key v (now + cacheDurationSeconds * 1000) store1,
                lastCacheDuration := some cacheDurationSeconds })

end MultiApiManager

/-- C3: the request builder rejects a URL with an `UnsafeUrl` error if
and only if, after replacing every backslash with a slash and
percent-decoding, the URL contains `/../`, ends with `/..`, contains
`/..?`, or contains a literal tab character; in particular
`isSafe("http://host/a/../b")` is false, `isSafe("http://host/a/b")`
is true, and `isSafe("http://host/a%2f..%2fb")` is false. -/
theorem claim_C3_unsafe_url :
    (∀ u : Str, isSafeURL u = false ↔
      (containsList ("/../".toList) (normalizeUrl u) = true ∨
       List.isSuffixOf ("/..".toList) (normalizeUrl u) = true ∨
       containsList ("/..?".toList) (normalizeUrl u) = true ∨
       containsList ['\t'] (normalizeUrl u) = true)) ∧
    isSafeURL ("http://host/a/../b".toList) = false ∧
    isSafeURL ("http://host/a/b".toList) = true ∧
    isSafeURL ("http://host/a%2f..%2fb".toList) = false ∧
    (∀ (V : Type) (fetch : Request → V) (api : ApiConfiguration)
       (method path : Str) (params headers : List (Str × Str))
       (data : Option Str),
      MultiApiManager._request fetch api method path params headers data =
          .error .unsafeUrl ↔
        isSafeURL (buildFullUrl api path params) = false) := by
  refine ⟨?_, by decide, by decide, by decide, ?_⟩
  · intro u
    rw [isSafeURL_eq_not_or]
    cases h1 : List.isSuffixOf ("/..".toList) (normalizeUrl u) <;>
      cases h2 : containsList ("/../".toList) (normalizeUrl u) <;>
        cases h3 : containsList ("/..?".toList) (normalizeUrl u) <;>
          cases h4 : containsList ['\t'] (normalizeUrl u) <;>
            simp
  · intro V fetch api method path params headers data
    simp only [MultiApiManager._request]
    cases h : isSafeURL (buildFullUrl api path params) <;> simp [h]

/-- C7: every call-supplied query parameter key is internally suffixed
with a positional disambiguator (`__` plus the position counter) and
that suffix is stripped again when the final query string is built:
`stripParamSuffix (suffixParamKey key i) = key` for every non-empty
key, so duplicate keys survive — e.g. two `id` parameters in one
request are kept as two distinct record entries whose stripped keys
are both `id`. -/
theorem claim_C7_param_suffix_roundtrip :
    (∀ (key : Str) (i : Nat), key ≠ [] →
      stripParamSuffix (suffixParamKey key i) = key) ∧
    ((MultiApiManager.addCallParams []
        [("id".toList, "1".toList), ("id".toList, "2".toList)]).map
      fun p => (stripParamSuffix p.1, p.2)) =
      [("id".toList, "1".toList), ("id".toList, "2".toList)] := by
  constructor
  · intro key i _
    obtain ⟨hne, hdig⟩ := natDigits_spec i
    exact stripParamSuffix_append key (natDigits i) hne hdig
  · decide

/-- C7 witness: the round trip evaluated at the key `id` and
position 7. -/
theorem claim_C7_witness :
    stripParamSuffix (suffixParamKey ("id".toList) 7) = "id".toList :=
  claim_C7_param_suffix_roundtrip.1 ("id".toList) 7 (by decide)

/-- C8: with a time range, `replaceMacros` rewrites every occurrence
of the four time macros (unix-epoch seconds of the range bounds and
their ISO renderings), leaving text without macro occurrences
verbatim; with no range the text is returned unchanged; for the range
`[from=1700000000, to=1700003600]` the text
`$__unixEpochFrom()-$__unixEpochTo()` becomes
`1700000000-1700003600`. -/
theorem claim_C8_replaceMacros :
    (∀ s : Str, replaceMacros s none = s) ∧
    (∀ (s : Str) (r : TimeRangeM),
      containsList ("$__unixEpochFrom()".toList) s = false →
      containsList ("$__unixEpochTo()".toList) s = false →
      containsList ("$__isoFrom()".toList) s = false →
      containsList ("$__isoTo()".toList) s = false →
      replaceMacros s (some r) = s) ∧
    replaceMacros ("$__unixEpochFrom()-$__unixEpochTo()".toList)
        (some ⟨1700000000, 1700003600,
          "2023-11-14T22:13:20.000Z".toList,
          "2023-11-14T23:13:20.000Z".toList⟩) =
      "1700000000-1700003600".toList := by
  refine ⟨fun s => rfl, ?_, by decide⟩
  intro s r h1 h2 h3 h4
  show replaceAll ("$__isoTo()".toList) r.toISO
      (replaceAll ("$__isoFrom()".toList) r.fromISO
        (replaceAll ("$__unixEpochTo()".toList) (natDigits r.toUnix)
          (replaceAll ("$__unixEpochFrom()".toList) (natDigits r.fromUnix) s))) = s
  rw [replaceAll_of_not_contains _ _ _ h1, replaceAll_of_not_contains _ _ _ h2,
    replaceAll_of_not_contains _ _ _ h3, replaceAll_of_not_contains _ _ _ h4]

/-- C8 witness: macro substitution applied to macro-free text with a
range supplied leaves it unchanged. -/
theorem claim_C8_witness :
    replaceMacros ("plain-text".toList)
        (some ⟨1, 2, "i1".toList, "i2".toList⟩) =
      "plain-text".toList :=
  claim_C8_replaceMacros.2.1 _ _ (by decide) (by decide) (by decide) (by decide)

/-- Example frame of the grouping property: columns `region` and
`value` with rows `(us,1), (eu,2), (us,3)`. -/
def exFrameC6 : Frame :=
  { name := .jstr ("A".toList)
    refId := "A".toList
    fields :=
      [{ name := "region".toList
         values := [.jstr ("us".toList), .jstr ("eu".toList), .jstr ("us".toList)] },
       { name := "value".toList
         values := [.jnum 1, .jnum 2, .jnum 3] }] }

/-- C6: `groupBy` partitions rows by distinct value of the named
column with output frames ordered by first occurrence, drops the
grouping column, and names each output frame after its group's value;
a missing column returns the input frame unchanged as a singleton; the
example with rows `(us,1),(eu,2),(us,3)` grouped by `region` yields
frame `us` with `value = [1,3]` and frame `eu` with `value = [2]`,
each without the `region` column. -/
theorem claim_C6_groupBy :
    (∀ (frame : Frame) (n : Str),
      (∀ f ∈ frame.fields, ¬ f.name = n) → groupBy frame n = [frame]) ∧
    (∀ (frame : Frame) (n : Str) (gf : FrameField),
      (frame.fields.find? fun f => f.name = n) = some gf →
      (((groupBy frame n).map fun g => g.name) = uniqueList gf.values ∧
       ∀ g ∈ groupBy frame n,
         (g.fields.map fun f => f.name) =
           ((frame.fields.filter fun f => ¬ f.name = n).map fun f => f.name))) ∧
    groupBy exFrameC6 ("region".toList) =
      [{ name := .jstr ("us".toList), refId := "A".toList,
         fields := [{ name := "value".toList, values := [.jnum 1, .jnum 3] }] },
       { name := .jstr ("eu".toList), refId := "A".toList,
         fields := [{ name := "value".toList, values := [.jnum 2] }] }] := by
  refine ⟨?_, ?_, by decide⟩
  · intro frame n h
    have hnone : (frame.fields.find? fun f => f.name = n) = none := by
      rw [List.find?_eq_none]
      intro f hf
      simp [h f hf]
    simp [groupBy, hnone]
  · intro frame n gf hfind
    have hname : gf.name = n := by
      have := List.find?_some hfind
      simpa using this
    constructor
    · simp only [groupBy, hfind, List.map_map]
      show (uniqueList gf.values).map (fun gv => gv) = uniqueList gf.values
      simp
    · intro g hg
      simp only [groupBy, hfind, List.mem_map] at hg
      obtain ⟨gv, hgv, rfl⟩ := hg
      simp [List.map_map, Function.comp, hname]

/-- C6 witness: grouping by an absent column returns the input frame
unchanged as a singleton. -/
theorem claim_C6_witness :
    groupBy exFrameC6 ("missing".toList) = [exFrameC6] :=
  claim_C6_groupBy.1 exFrameC6 ("missing".toList) (by decide)

/-- helper: the length check either passes or throws the
length-mismatch message. -/
theorem checkLengths_cases (fields : List FrameField) :
    checkLengths fields = .ok () ∨ checkLengths fields = .error lengthMismatchMsg := by
  unfold checkLengths
  split
  · right; rfl
  · left; rfl

/-- helper: a pair of unequal column lengths forces the
length-mismatch error. -/
theorem buildFrames_mismatch (refId : Str) (fields : List FrameField)
    (gb : Option Str)
    (h : ∃ f ∈ fields, ∃ g ∈ fields, f.values.length ≠ g.values.length) :
    buildFrames refId fields gb = .error lengthMismatchMsg := by
  have hnot : ¬ ∀ f ∈ fields, ∀ g ∈ fields, f.values.length = g.values.length := by
    obtain ⟨f, hf, g, hg, hne⟩ := h
    intro hall
    exact hne (hall f hf g hg)
  have herr : checkLengths fields = .error lengthMismatchMsg := by
    rcases checkLengths_cases fields with hok | herr
    · exact absurd ((checkLengths_ok_iff fields).mp hok) hnot
    · exact herr
  unfold buildFrames
  rw [herr]

/-- helper: frame construction succeeds exactly when all column
lengths agree. -/
theorem buildFrames_ok_iff (refId : Str) (fields : List FrameField)
    (gb : Option Str) :
    (∃ frames, buildFrames refId fields gb = .ok frames) ↔
      ∀ f ∈ fields, ∀ g ∈ fields, f.values.length = g.values.length := by
  constructor
  · rintro ⟨frames, hfr⟩
    rcases checkLengths_cases fields with hok | herr
    · exact (checkLengths_ok_iff fields).mp hok
    · unfold buildFrames at hfr
      rw [herr] at hfr
      exact absurd hfr (by simp)
  · intro h
    have hok := (checkLengths_ok_iff fields).mpr h
    unfold buildFrames
    rw [hok]
    cases gb with
    | none => exact ⟨_, rfl⟩
    | some n =>
      by_cases hn : n.isEmpty <;> simp [hn]

/-- C2: frame construction succeeds only if all extracted columns have
equal length; any two columns of different length make `doRequest`
fail with the `Fields have different lengths` error before any frame
is produced. -/
theorem claim_C2_length_mismatch :
    (∀ (refId : Str) (fields : List FrameField) (gb : Option Str),
      ((∃ f ∈ fields, ∃ g ∈ fields, f.values.length ≠ g.values.length) →
        buildFrames refId fields gb = .error lengthMismatchMsg) ∧
      ((∃ frames, buildFrames refId fields gb = .ok frames) ↔
        ∀ f ∈ fields, ∀ g ∈ fields, f.values.length = g.values.length)) ∧
    (∀ (eval : JsonField → Except Str FrameField) (refId : Str)
       (qfields : List JsonField) (gb : Option Str) (fs : List FrameField),
      extractAll eval qfields = .ok fs →
      (∃ f ∈ fs, ∃ g ∈ fs, f.values.length ≠ g.values.length) →
      doRequestModel eval refId qfields gb = .error lengthMismatchMsg) := by
  constructor
  · intro refId fields gb
    exact ⟨buildFrames_mismatch refId fields gb, buildFrames_ok_iff refId fields gb⟩
  · intro eval refId qfields gb fs hex h
    unfold doRequestModel
    rw [hex]
    exact buildFrames_mismatch refId fs gb h

/-- C2 witness: two columns of lengths one and zero make frame
construction fail with the length-mismatch error. -/
theorem claim_C2_witness :
    buildFrames ("A".toList)
        [{ name := "a".toList, values := [JVal.jnull] },
         { name := "b".toList, values := [] }] none =
      .error lengthMismatchMsg :=
  (claim_C2_length_mismatch.1 _ _ _).1
    ⟨{ name := "a".toList, values := [JVal.jnull] }, by decide,
     { name := "b".toList, values := [] }, by decide, by decide⟩

/-- helper: a throw from the evaluation callback aborts the map and
propagates unchanged, provided every earlier element succeeded. -/
theorem mapExcept_error (f : α → Except Str β) (pre : List α) (a : α)
    (post : List α) (e : Str)
    (hpre : ∀ g ∈ pre, ∃ v, f g = .ok v) (herr : f a = .error e) :
    mapExcept f (pre ++ a :: post) = .error e := by
  induction pre with
  | nil =>
    simp only [List.nil_append, mapExcept]
    rw [herr]
  | cons g rest ih =>
    obtain ⟨v, hv⟩ := hpre g (by simp)
    have hrest := ih fun x hx => hpre x (by simp [hx])
    show (match f g with
      | Except.error err => (Except.error err : Except Str (List β))
      | Except.ok b =>
        match mapExcept f (rest ++ a :: post) with
        | Except.error err => Except.error err
        | Except.ok bs => Except.ok (b :: bs)) = Except.error e
    rw [hv, hrest]

/-- Evaluator standing for a `jsonata` engine throwing on a malformed
expression; the thrown message is the engine's own and mentions
neither the field's name nor its expression. -/
def evalFailC9 : JsonField → Except Str FrameField :=
  fun _ => .error ("invalid jsonata expression".toList)

/-- Query field used to exercise the evaluation-failure path. -/
def fldC9 : JsonField :=
  { name := some ("myColumn".toList), jsonPath := "$$bad".toList, isJsonata := true }

/-- C9 counterexample: a field whose evaluation fails makes
`doRequest` fail with the evaluator's own error, verbatim; the error
mentions neither the field's output name (`myColumn`) nor its
expression (`$$bad`), so it does not identify the offending field as
the claim requires. -/
theorem claim_C9_counterexample :
    doRequestModel evalFailC9 ("A".toList) [fldC9] none =
        .error ("invalid jsonata expression".toList) ∧
      containsList ("myColumn".toList) ("invalid jsonata expression".toList) = false ∧
      containsList ("$$bad".toList) ("invalid jsonata expression".toList) = false := by
  refine ⟨rfl, by decide, by decide⟩

/-- C9 amended: a failure of expression evaluation in either dialect
aborts frame construction and surfaces to the caller, but as the
evaluator's own error propagated unchanged — `doRequest` wraps it in
no `ExtractionFailed` error and attaches no identification of the
offending field. -/
theorem claim_C9_amended (eval : JsonField → Except Str FrameField)
    (refId : Str) (qfields : List JsonField) (gb : Option Str)
    (pre : List JsonField) (fld : JsonField) (post : List JsonField) (e : Str)
    (hsplit : qfields.filter (fun f => !f.jsonPath.isEmpty) = pre ++ fld :: post)
    (hpre : ∀ g ∈ pre, ∃ v, eval g = .ok v)
    (herr : eval fld = .error e) :
    doRequestModel eval refId qfields gb = .error e := by
  unfold doRequestModel extractAll
  rw [hsplit, mapExcept_error eval pre fld post e hpre herr]

/-- C9 amended witness: the failing evaluation of the example field
propagates its message unchanged through the pipeline. -/
theorem claim_C9_amended_witness :
    doRequestModel evalFailC9 ("A".toList) [fldC9] none =
      .error ("invalid jsonata expression".toList) :=
  claim_C9_amended evalFailC9 ("A".toList) [fldC9] none [] fldC9 [] _
    (by decide) (fun g hg => absurd hg (List.not_mem_nil g)) rfl

/-- API configuration with a default `X-Key: k1` header, used to
exercise the header-merge path. -/
def apiC4 : ApiConfiguration :=
  { id := "a".toList, name := "a".toList, url := "http://h".toList,
    queryParams := none, headers := [("X-Key".toList, "k1".toList)] }

/-- Request actually handed to the transport when API defaults
`[("X-Key","k1")]` meet call headers `[("X-Key","k2")]`. -/
def reqC4 : Request :=
  { url := "http://h/p".toList
    method := "GET".toList
    headers := [("Content-Type".toList, "application/json".toList),
                ("X-Key".toList, "k2".toList)]
    data := none }

/-- C4 counterexample: merging API defaults `[("X-Key","k1")]` with
call headers `[("X-Key","k2")]` does put both pairs, in order, in the
merged list, but the request actually dispatched carries only the
call-supplied pair — the default `("X-Key","k1")` is absent from the
final header set, so both pairs are not present as claimed. -/
theorem claim_C4_counterexample :
    MultiApiManager.mergeHeaders apiC4.headers [("X-Key".toList, "k2".toList)] =
        [("X-Key".toList, "k1".toList), ("X-Key".toList, "k2".toList)] ∧
      MultiApiManager.get (fun r => r) [apiC4] ("a".toList) ("GET".toList)
          ("/p".toList) [] [("X-Key".toList, "k2".toList)] none = .ok reqC4 ∧
      ("X-Key".toList, "k1".toList) ∉ reqC4.headers ∧
      countKey ("X-Key".toList) reqC4.headers = 1 := by
  exact ⟨rfl, rfl, by decide, by decide⟩

/-- helper: record insertion preserves the at-most-one-entry-per-key
invariant. -/
theorem countKey_recordInsert_le (m : List (Str × Str)) (k' v k : Str)
    (h : countKey k m ≤ 1) : countKey k (recordInsert m k' v) ≤ 1 := by
  unfold recordInsert
  by_cases hany : m.any fun p => p.1 = k'
  · rw [if_pos hany]
    have : countKey k (m.map fun p => if p.1 = k' then (k', v) else p) =
        countKey k m := by
      unfold countKey
      rw [List.countP_map]
      apply List.countP_congr
      intro p _
      by_cases hp : p.1 = k'
      · simp [Function.comp, hp]
      · simp [Function.comp, hp]
    rw [this]
    exact h
  · rw [if_neg hany]
    unfold countKey at h ⊢
    rw [List.countP_append]
    by_cases hk : k' = k
    · have hzero : m.countP (fun p => decide (p.1 = k)) = 0 := by
        rw [List.countP_eq_zero]
        intro p hp
        simp only [decide_eq_true_eq]
        intro hcon
        apply hany
        rw [List.any_eq_true]
        exact ⟨p, hp, by simp [hcon, hk]⟩
      rw [hzero]
      simp [hk]
    · have : List.countP (fun p => decide (p.1 = k)) [(k', v)] = 0 := by
        simp [hk]
      rw [this]
      omega

/-- helper: every key occurs at most once in a record built by folding
insertions over a duplicate-free start. -/
theorem countKey_foldl_recordInsert_le (hs : List (Str × Str))
    (m : List (Str × Str)) (hm : ∀ k, countKey k m ≤ 1) (k : Str) :
    countKey k (hs.foldl (fun m p => recordInsert m p.1 p.2) m) ≤ 1 := by
  induction hs generalizing m with
  | nil => exact hm k
  | cons p rest ih =>
    rw [List.foldl_cons]
    exact ih (recordInsert m p.1 p.2)
      fun k' => countKey_recordInsert_le m p.1 p.2 k' (hm k')

/-- helper: rewriting every entry of a key and looking that key up
yields the new value. -/
theorem find?_map_overwrite (m : List (Str × Str)) (k v : Str)
    (hany : m.any (fun p => p.1 = k) = true) :
    ((m.map fun p => if p.1 = k then (k, v) else p).find? fun p => p.1 = k) =
      some (k, v) := by
  induction m with
  | nil => simp at hany
  | cons p rest ih =>
    simp only [List.map_cons]
    by_cases hp : p.1 = k
    · rw [if_pos hp]
      simp [List.find?]
    · rw [if_neg hp]
      rw [List.find?_cons_of_neg _ (by simp [hp])]
      apply ih
      simp only [List.any_cons, hp] at hany
      simpa using hany

/-- helper: insertion of a key makes its lookup yield the inserted
value (call-supplied value wins over any earlier entry). -/
theorem recordLookup_insert_self (m : List (Str × Str)) (k v : Str) :
    recordLookup k (recordInsert m k v) = some v := by
  unfold recordInsert recordLookup
  by_cases hany : m.any fun p => p.1 = k
  · rw [if_pos hany, find?_map_overwrite m k v hany]
    rfl
  · rw [if_neg hany]
    have hnone : (m.find? fun p => p.1 = k) = none := by
      rw [List.find?_eq_none]
      intro p hp
      simp only [List.any_eq_true, not_exists] at hany
      have := hany p
      simp only [hp, true_and] at this
      simpa using this
    rw [List.find?_append, hnone]
    simp [List.find?]

/-- C4 amended: the merged header list does contain both pairs in
order (defaults first), but `_request` then folds the merged list into
a keyed record, so the final header set sent with the request performs
deduplication in this component: it carries at most one entry per key,
the call-supplied (later) value overwriting the API default; e.g.
defaults `[("X-Key","k1")]` with call headers `[("X-Key","k2")]` send
only `("X-Key","k2")`. -/
theorem claim_C4_amended :
    (∀ (apiHeaders callHeaders : List (Str × Str)),
      MultiApiManager.mergeHeaders apiHeaders callHeaders =
        apiHeaders ++ callHeaders) ∧
    (∀ (hs : List (Str × Str)) (k : Str),
      countKey k (MultiApiManager.buildRecordHeaders hs) ≤ 1) ∧
    (∀ (m : List (Str × Str)) (k v : Str),
      recordLookup k (recordInsert m k v) = some v) ∧
    (MultiApiManager.get (fun r => r) [apiC4] ("a".toList) ("GET".toList)
        ("/p".toList) [] [("X-Key".toList, "k2".toList)] none = .ok reqC4 ∧
      recordLookup ("X-Key".toList) reqC4.headers = some ("k2".toList)) := by
  refine ⟨fun a c => rfl, ?_, recordLookup_insert_self, rfl, by decide⟩
  intro hs k
  unfold MultiApiManager.buildRecordHeaders
  apply countKey_foldl_recordInsert_le
  intro k'
  unfold countKey
  rw [List.countP_cons, List.countP_nil]
  split <;> simp

/-- C4 amended witness: the at-most-one-entry bound evaluated on the
example merged headers, and the record insertion overwrite evaluated
at a concrete record. -/
theorem claim_C4_amended_witness :
    countKey ("X-Key".toList)
        (MultiApiManager.buildRecordHeaders
          [("X-Key".toList, "k1".toList), ("X-Key".toList, "k2".toList)]) ≤ 1 :=
  claim_C4_amended.2.1
    [("X-Key".toList, "k1".toList), ("X-Key".toList, "k2".toList)]
    ("X-Key".toList)

namespace MultiApiManager

/-- helper: reading a key just deleted from the cache misses. -/
theorem cacheRead_del_self (now : Nat) (key : Str)
    (store : List (Str × V × Nat)) :
    cacheRead now key (cacheDel key store) = none := by
  unfold cacheRead cacheDel
  have hnone : ((store.filter fun e => !(e.1 = key : Bool)).find?
      fun e => e.1 = key) = none := by
    rw [List.find?_eq_none]
    intro e he
    rw [List.mem_filter] at he
    simpa using he.2
  rw [hnone]

/-- helper: overwriting every entry of a key and then searching that
key finds the overwritten entry. -/
theorem find?_map_overwriteC (m : List (Str × V × Nat)) (k : Str) (v : V)
    (exp : Nat) (hany : m.any (fun e => e.1 = k) = true) :
    ((m.map fun e => if e.1 = k then (k, v, exp) else e).find?
      fun e => e.1 = k) = some (k, v, exp) := by
  induction m with
  | nil => simp at hany
  | cons e rest ih =>
    simp only [List.map_cons]
    by_cases he : e.1 = k
    · rw [if_pos he]
      rw [List.find?_cons]
      simp
    · rw [if_neg he]
      rw [List.find?_cons_of_neg _ (by simp [he])]
      apply ih
      simp only [List.any_cons, Bool.or_eq_true] at hany
      rcases hany with hfalse | hrest
      · exact absurd (of_decide_eq_true hfalse) he
      · exact hrest

/-- helper: a cache write places its entry where the key's lookup
finds it. -/
theorem find?_cachePut_self (key : Str) (v : V) (exp : Nat)
    (store : List (Str × V × Nat)) :
    ((cachePut key v exp store).find? fun e => e.1 = key) =
      some (key, v, exp) := by
  unfold cachePut
  by_cases hany : store.any fun e => e.1 = key
  · rw [if_pos hany]
    exact find?_map_overwriteC store key v exp hany
  · rw [if_neg hany]
    have hnone : (store.find? fun e => e.1 = key) = none := by
      rw [List.find?_eq_none]
      intro e he
      intro hcon
      apply hany
      rw [List.any_eq_true]
      exact ⟨e, he, hcon⟩
    rw [List.find?_append, hnone]
    rw [Option.none_or, List.find?_cons]
    simp

/-- helper: reading a freshly written key serves the stored value
while unexpired and misses afterwards. -/
theorem cacheRead_cachePut_self (now : Nat) (key : Str) (v : V)
    (exp : Nat) (store : List (Str × V × Nat)) :
    cacheRead now key (cachePut key v exp store) =
      if now ≤ exp then some v else none := by
  unfold cacheRead
  rw [find?_cachePut_self]

end MultiApiManager

/-- C1 (amended): with a zero (falsy) duration, `cachedGet` bypasses
the cache entirely and calls the dispatcher directly, leaving the
state unchanged.  With a positive duration and no live entry under the
computed key, the first call dispatches exactly once and stores the
response; provided the stored response is truthy, a second call with
the same apiId, path and params (and any method, headers and body —
the key ignores those) within the TTL window returns the same cached
response without dispatching and leaves the state unchanged, while a
call after TTL expiry misses and dispatches exactly one new request.
A live entry whose stored response is falsy fails the `if (cachedItem)`
hit test, so a successful call over it dispatches again within the
TTL. -/
theorem claim_C1_cachedGet (V : Type) (truthy : V → Bool)
    (fetch : Request → V) (t1 : Nat)
    (st : MultiApiManager.State V) (apiId : Str) (dur : Nat)
    (method path : Str) (params headers : List (Str × Str)) (body : Option Str)
    (api : ApiConfiguration) (v1 : V)
    (hdur : ¬ dur = 0)
    (hapi : MultiApiManager.getApi st.apis apiId = some api)
    (hmiss : MultiApiManager.cacheRead t1 (cacheKey api path params)
      st.cacheStore = none)
    (hget : MultiApiManager.get fetch st.apis apiId method path params
      headers body = .ok v1)
    (htruthy : truthy v1 = true) :
    (∀ (st' : MultiApiManager.State V) (t : Nat),
      MultiApiManager.cachedGet truthy fetch t st' apiId 0 method path params
          headers body =
        Except.map (fun v => (v, true, st'))
          (MultiApiManager.get fetch st'.apis apiId method path params
            headers body)) ∧
    (∃ s1 : MultiApiManager.State V,
      MultiApiManager.cachedGet truthy fetch t1 st apiId dur method path
          params headers body = .ok (v1, true, s1) ∧
      (∀ (t2 : Nat) (method2 : Str) (headers2 : List (Str × Str))
         (body2 : Option Str), t2 ≤ t1 + dur * 1000 →
        MultiApiManager.cachedGet truthy fetch t2 s1 apiId dur method2 path
            params headers2 body2 = .ok (v1, false, s1)) ∧
      (∀ (t3 : Nat) (method3 : Str) (headers3 : List (Str × Str))
         (body3 : Option Str) r, t1 + dur * 1000 < t3 →
        MultiApiManager.cachedGet truthy fetch t3 s1 apiId dur method3 path
            params headers3 body3 = .ok r → r.2.1 = true)) ∧
    (∀ (st2 : MultiApiManager.State V) (t : Nat) (v : V),
      MultiApiManager.getApi st2.apis apiId = some api →
      st2.lastCacheDuration = some dur →
      MultiApiManager.cacheRead t (cacheKey api path params)
        st2.cacheStore = some v →
      truthy v = false →
      ∀ r, MultiApiManager.cachedGet truthy fetch t st2 apiId dur method
        path params headers body = .ok r → r.2.1 = true) := by
  refine ⟨?_, ?_, ?_⟩
  · intro st' t
    cases h : MultiApiManager.get fetch st'.apis apiId method path params
        headers body with
    | error e => simp [MultiApiManager.cachedGet, h, Except.map]
    | ok v => simp [MultiApiManager.cachedGet, h, Except.map]
  · have hread1 : MultiApiManager.cacheRead t1 (cacheKey api path params)
        (if st.lastCacheDuration = some dur then st.cacheStore
         else MultiApiManager.cacheDel (cacheKey api path params)
           st.cacheStore) = none := by
      split
      · exact hmiss
      · exact MultiApiManager.cacheRead_del_self _ _ _
    refine ⟨⟨MultiApiManager.cachePut (cacheKey api path params) v1
        (t1 + dur * 1000)
        (if st.lastCacheDuration = some dur then st.cacheStore
         else MultiApiManager.cacheDel (cacheKey api path params)
           st.cacheStore),
      st.apis, some dur⟩, ?_, ?_, ?_⟩
    · simp only [MultiApiManager.cachedGet, hdur, hapi, hread1, hget,
        if_true, if_false]
    · intro t2 method2 headers2 body2 ht2
      simp only [MultiApiManager.cachedGet, hdur, hapi,
        MultiApiManager.cacheRead_cachePut_self, ht2, htruthy,
        if_true, if_false]
    · intro t3 method3 headers3 body3 r h3 hr
      have hn : ¬ t3 ≤ t1 + dur * 1000 := by omega
      simp only [MultiApiManager.cachedGet, hdur, hapi,
        MultiApiManager.cacheRead_cachePut_self, hn, if_true,
        if_false] at hr
      cases hg : MultiApiManager.get fetch st.apis apiId method3 path
          params headers3 body3 with
      | error e =>
        rw [hg] at hr
        exact absurd hr (by simp)
      | ok w =>
        rw [hg] at hr
        injection hr with h
        subst h
        rfl
  · intro st2 t v hapi2 hlast2 hv2 hfalsy r hr
    simp only [MultiApiManager.cachedGet, hdur, hapi2, hlast2, hv2, hfalsy,
      eq_self_iff_true, Bool.false_eq_true, if_true, if_false] at hr
    cases hg : MultiApiManager.get fetch st2.apis apiId method path
        params headers body with
    | error e =>
      rw [hg] at hr
      exact absurd hr (by simp)
    | ok w =>
      rw [hg] at hr
      injection hr with h
      subst h
      rfl

/-- Transport stub returning the length of the requested URL, enough
to observe which URL a dispatch hit. -/
def fetchLen : Request → Nat := fun r => r.url.length

/-- Minimal API configuration `a` at base URL `http://h`. -/
def apiA : ApiConfiguration :=
  { id := "a".toList, name := "a".toList, url := "http://h".toList,
    queryParams := none, headers := [] }

/-- The same API identifier re-pointed to base URL `http://gg`. -/
def apiA2 : ApiConfiguration :=
  { id := "a".toList, name := "a".toList, url := "http://gg".toList,
    queryParams := none, headers := [] }

/-- Fresh manager state holding only `apiA`. -/
def st0 : MultiApiManager.State Nat := ⟨[], [apiA], none⟩

/-- State after `cachedGet` at time 0 with duration 5 on path `/p`:
the response (10) is cached under `http://h/p` until 5000. -/
def s1c : MultiApiManager.State Nat :=
  ⟨[("http://h/p".toList, 10, 5000)], [apiA], some 5⟩

/-- State after a further `cachedGet` at time 0 with duration 7 on
path `/q`: both entries live, last observed duration now 7. -/
def s2c : MultiApiManager.State Nat :=
  ⟨[("http://h/p".toList, 10, 5000), ("http://h/q".toList, 10, 7000)],
   [apiA], some 7⟩

/-- State after a third `cachedGet` at time 1000 with duration 5 on
path `/p` again: the `/p` entry was evicted and re-dispatched. -/
def s3c : MultiApiManager.State Nat :=
  ⟨[("http://h/q".toList, 10, 7000), ("http://h/p".toList, 10, 6000)],
   [apiA], some 5⟩

/-- JavaScript truthiness of a numeric response: zero is falsy, any
other number is truthy. -/
def natTruthy : Nat → Bool := fun n => !n.beq 0

/-- Transport stub whose response is the falsy number 0. -/
def fetchZero : Request → Nat := fun _ => 0

/-- State after a `cachedGet` through `fetchZero` at time 0 with
duration 5 on path `/p`: the falsy response 0 is cached until 5000. -/
def sZ1 : MultiApiManager.State Nat :=
  ⟨[("http://h/p".toList, 0, 5000)], [apiA], some 5⟩

/-- State after repeating the same call at time 1000: the falsy entry
failed the truthiness hit test, so the call dispatched again and the
entry was overwritten with the fresh expiry 6000. -/
def sZ2 : MultiApiManager.State Nat :=
  ⟨[("http://h/p".toList, 0, 6000)], [apiA], some 5⟩

/-- C1 witness: the amended cache semantics evaluated on a concrete
manager with one API, duration 5, path `/p`, from the empty cache at
time 0, with the truthy response 10. -/
theorem claim_C1_witness :
    ∃ s1 : MultiApiManager.State Nat,
      MultiApiManager.cachedGet natTruthy fetchLen 0 st0 ("a".toList) 5
          ("GET".toList) ("/p".toList) [] [] none = .ok (10, true, s1) ∧
      (∀ (t2 : Nat) (method2 : Str) (headers2 : List (Str × Str))
         (body2 : Option Str), t2 ≤ 0 + 5 * 1000 →
        MultiApiManager.cachedGet natTruthy fetchLen t2 s1 ("a".toList) 5
            method2 ("/p".toList) [] headers2 body2 = .ok (10, false, s1)) ∧
      (∀ (t3 : Nat) (method3 : Str) (headers3 : List (Str × Str))
         (body3 : Option Str) r, 0 + 5 * 1000 < t3 →
        MultiApiManager.cachedGet natTruthy fetchLen t3 s1 ("a".toList) 5
            method3 ("/p".toList) [] headers3 body3 = .ok r →
        r.2.1 = true) :=
  (claim_C1_cachedGet Nat natTruthy fetchLen 0 st0 ("a".toList) 5
    ("GET".toList) ("/p".toList) [] [] none apiA 10 (by decide) rfl rfl
    rfl rfl).2.1

/-- C1 counterexample: an API whose response is the falsy number 0.
The first call dispatches and caches 0 under `http://h/p`; the second
identical call at time 1000 — within the TTL, with the entry live
(the read serves 0) — dispatches again (`true` flag, entry re-stored
with expiry 6000) because `if (cachedItem)` is a truthiness test and 0
is falsy, contradicting the claim's "the second call returns the
cached value without calling the dispatcher". -/
theorem claim_C1_counterexample :
    MultiApiManager.cachedGet natTruthy fetchZero 0 st0 ("a".toList) 5
        ("GET".toList) ("/p".toList) [] [] none = .ok (0, true, sZ1) ∧
      MultiApiManager.cacheRead 1000 (cacheKey apiA ("/p".toList) [])
        sZ1.cacheStore = some 0 ∧
      MultiApiManager.cachedGet natTruthy fetchZero 1000 sZ1 ("a".toList) 5
        ("GET".toList) ("/p".toList) [] [] none = .ok (0, true, sZ2) := by
  exact ⟨rfl, rfl, rfl⟩

namespace MultiApiManager

/-- helper: with a matching last-observed duration and a live entry
under the key whose stored response is truthy, `cachedGet` serves the
cache without dispatching and leaves the store untouched. -/
theorem cachedGet_hit (V : Type) (truthy : V → Bool) (fetch : Request → V)
    (t : Nat) (st : State V) (apiId : Str) (dur : Nat) (method path : Str)
    (params headers : List (Str × Str)) (body : Option Str)
    (api : ApiConfiguration) (v : V)
    (hdur : ¬ dur = 0) (hapi : getApi st.apis apiId = some api)
    (hlast : st.lastCacheDuration = some dur)
    (hv : cacheRead t (cacheKey api path params) st.cacheStore = some v)
    (htruthy : truthy v = true) :
    cachedGet truthy fetch t st apiId dur method path params headers body =
      .ok (v, false, ⟨st.cacheStore, st.apis, some dur⟩) := by
  simp only [cachedGet, hdur, hapi, hlast, hv, htruthy, eq_self_iff_true,
    if_true, if_false]

/-- helper: when the call's duration differs from the last-observed
one, the key is evicted first, so a successful `cachedGet` always
dispatches — regardless of any live entry under the key. -/
theorem cachedGet_dispatch_of_evict (V : Type) (truthy : V → Bool)
    (fetch : Request → V)
    (t : Nat) (st : State V) (apiId : Str) (dur : Nat) (method path : Str)
    (params headers : List (Str × Str)) (body : Option Str)
    (api : ApiConfiguration)
    (hdur : ¬ dur = 0) (hapi : getApi st.apis apiId = some api)
    (hlast : ¬ st.lastCacheDuration = some dur) :
    ∀ r, cachedGet truthy fetch t st apiId dur method path params headers
      body = .ok r → r.2.1 = true := by
  intro r hr
  simp only [cachedGet, hdur, hapi, hlast, cacheRead_del_self,
    if_true, if_false] at hr
  cases hg : get fetch st.apis apiId method path params headers body with
  | error e =>
    rw [hg] at hr
    exact absurd hr (by simp)
  | ok w =>
    rw [hg] at hr
    injection hr with h
    subst h
    rfl

/-- helper: an unknown API id makes `cachedGet` throw. -/
theorem cachedGet_unknown (V : Type) (truthy : V → Bool)
    (fetch : Request → V) (t : Nat)
    (st : State V) (apiId : Str) (dur : Nat) (method path : Str)
    (params headers : List (Str × Str)) (body : Option Str)
    (hdur : ¬ dur = 0) (hnone : getApi st.apis apiId = none) :
    cachedGet truthy fetch t st apiId dur method path params headers body =
      .error (.unknownApi apiId) := by
  simp only [cachedGet, hdur, hnone, if_true, if_false]

end MultiApiManager

/-- C5 counterexample: key `/p` is first computed with duration 5
(entry cached), a different key `/q` is then computed with duration 7,
and a third call repeats `/p` with duration 5 — the same duration as
the previous computation of that same key, with its entry still live
(the read at time 1000 serves 10).  The claim's per-key scoping
demands no eviction and a cache hit, yet the call evicts and
dispatches (`true` flag, and `/p` re-stored with the fresh expiry
6000): the eviction is driven by the instance-wide last-observed
duration (7, set by the `/q` call), not by this key's history. -/
theorem claim_C5_counterexample :
    MultiApiManager.cachedGet natTruthy fetchLen 0 st0 ("a".toList) 5
        ("GET".toList) ("/p".toList) [] [] none = .ok (10, true, s1c) ∧
      MultiApiManager.cachedGet natTruthy fetchLen 0 s1c ("a".toList) 7
        ("GET".toList) ("/q".toList) [] [] none = .ok (10, true, s2c) ∧
      MultiApiManager.cacheRead 1000 (cacheKey apiA ("/p".toList) [])
        s2c.cacheStore = some 10 ∧
      MultiApiManager.cachedGet natTruthy fetchLen 1000 s2c ("a".toList) 5
        ("GET".toList) ("/p".toList) [] [] none = .ok (10, true, s3c) := by
  exact ⟨rfl, rfl, rfl, rfl⟩

/-- C5 amended: in `cachedGet` the existing entry for the computed key
is evicted before lookup exactly when the supplied duration differs
from the duration observed by the previous `cachedGet` call on this
manager instance — on any key, since only the most recent duration is
tracked.  When the durations agree a live entry whose stored response
is truthy is served without dispatch and the store is untouched; when
they differ the key is evicted first, so a successful call always
dispatches even over a live entry. -/
theorem claim_C5_amended (V : Type) (truthy : V → Bool)
    (fetch : Request → V) (t : Nat)
    (st : MultiApiManager.State V) (apiId : Str) (dur : Nat)
    (method path : Str) (params headers : List (Str × Str))
    (body : Option Str) (api : ApiConfiguration)
    (hdur : ¬ dur = 0)
    (hapi : MultiApiManager.getApi st.apis apiId = some api) :
    (st.lastCacheDuration = some dur →
      ∀ v, MultiApiManager.cacheRead t (cacheKey api path params)
          st.cacheStore = some v →
        truthy v = true →
        ∃ s', MultiApiManager.cachedGet truthy fetch t st apiId dur method
            path params headers body = .ok (v, false, s') ∧
          s'.cacheStore = st.cacheStore) ∧
    (¬ st.lastCacheDuration = some dur →
      ∀ r, MultiApiManager.cachedGet truthy fetch t st apiId dur method
          path params headers body = .ok r → r.2.1 = true) := by
  constructor
  · intro hlast v hv htruthy
    exact ⟨⟨st.cacheStore, st.apis, some dur⟩,
      MultiApiManager.cachedGet_hit V truthy fetch t st apiId dur method
        path params headers body api v hdur hapi hlast hv htruthy, rfl⟩
  · intro hlast
    exact MultiApiManager.cachedGet_dispatch_of_evict V truthy fetch t st
      apiId dur method path params headers body api hdur hapi hlast

/-- C5 amended witness: with the last-observed duration equal to this
call's duration, the live truthy `/p` entry is served without
dispatch. -/
theorem claim_C5_amended_witness :
    ∃ s', MultiApiManager.cachedGet natTruthy fetchLen 0 s1c ("a".toList) 5
        ("GET".toList) ("/p".toList) [] [] none = .ok (10, false, s') ∧
      s'.cacheStore = s1c.cacheStore :=
  (claim_C5_amended Nat natTruthy fetchLen 0 s1c ("a".toList) 5
    ("GET".toList) ("/p".toList) [] [] none apiA (by decide) rfl).1
    rfl 10 rfl rfl

/-- C10 counterexample: after caching `/p` for API `a` and replacing
the API list with the empty list, the cache still holds the live
entry, yet `cachedGet` throws `unknownApi` instead of serving it; and
after re-pointing `a` to `http://gg`, the call dispatches anew
(result 11 from the new URL, `true` flag) instead of serving the still
live cached 10 — removed or re-pointed APIs do not keep serving their
cached responses. -/
theorem claim_C10_counterexample :
    (MultiApiManager.updateApis s1c []).cacheStore = s1c.cacheStore ∧
      (MultiApiManager.updateApis s1c []).lastCacheDuration =
        s1c.lastCacheDuration ∧
      MultiApiManager.cacheRead 0 (cacheKey apiA ("/p".toList) [])
        (MultiApiManager.updateApis s1c []).cacheStore = some 10 ∧
      MultiApiManager.cachedGet natTruthy fetchLen 0
        (MultiApiManager.updateApis s1c [])
        ("a".toList) 5 ("GET".toList) ("/p".toList) [] [] none =
        .error (.unknownApi ("a".toList)) ∧
      MultiApiManager.cachedGet natTruthy fetchLen 0
          (MultiApiManager.updateApis s1c [apiA2]) ("a".toList) 5
          ("GET".toList) ("/p".toList) [] [] none =
        .ok (11, true,
          ⟨[("http://h/p".toList, 10, 5000), ("http://gg/p".toList, 11, 5000)],
           [apiA2], some 5⟩) := by
  exact ⟨rfl, rfl, rfl, rfl, rfl⟩

/-- C10 amended: `updateApis` modifies only the API map — cache
contents and the last-observed duration are untouched — so cached
responses keep being served, but only while the query's `apiId` still
resolves and the resolved configuration yields the same cache key: a
removed id makes `cachedGet` throw `unknownApi`, and a live entry
whose stored response is truthy is served only under the key computed
from the post-update configuration's base URL. -/
theorem claim_C10_amended (V : Type) (st : MultiApiManager.State V)
    (apis : List ApiConfiguration) :
    ((MultiApiManager.updateApis st apis).cacheStore = st.cacheStore ∧
     (MultiApiManager.updateApis st apis).lastCacheDuration =
       st.lastCacheDuration ∧
     (MultiApiManager.updateApis st apis).apis =
       MultiApiManager.buildApis apis) ∧
    (∀ (truthy : V → Bool) (fetch : Request → V) (t : Nat) (apiId : Str)
       (dur : Nat) (method path : Str) (params headers : List (Str × Str))
       (body : Option Str),
      ¬ dur = 0 →
      MultiApiManager.getApi (MultiApiManager.updateApis st apis).apis
        apiId = none →
      MultiApiManager.cachedGet truthy fetch t
        (MultiApiManager.updateApis st apis)
        apiId dur method path params headers body =
        .error (.unknownApi apiId)) ∧
    (∀ (truthy : V → Bool) (fetch : Request → V) (t : Nat) (apiId : Str)
       (dur : Nat) (method path : Str) (params headers : List (Str × Str))
       (body : Option Str) (api : ApiConfiguration) (v : V),
      ¬ dur = 0 →
      MultiApiManager.getApi (MultiApiManager.updateApis st apis).apis
        apiId = some api →
      (MultiApiManager.updateApis st apis).lastCacheDuration = some dur →
      MultiApiManager.cacheRead t (cacheKey api path params)
        st.cacheStore = some v →
      truthy v = true →
      ∃ s', MultiApiManager.cachedGet truthy fetch t
          (MultiApiManager.updateApis st apis) apiId dur method path
          params headers body = .ok (v, false, s') ∧
        s'.cacheStore = st.cacheStore) := by
  refine ⟨⟨rfl, rfl, rfl⟩, ?_, ?_⟩
  · intro truthy fetch t apiId dur method path params headers body hdur
      hnone
    exact MultiApiManager.cachedGet_unknown V truthy fetch t _ apiId dur
      method path params headers body hdur hnone
  · intro truthy fetch t apiId dur method path params headers body api v
      hdur hapi hlast hv htruthy
    exact ⟨⟨(MultiApiManager.updateApis st apis).cacheStore,
        (MultiApiManager.updateApis st apis).apis, some dur⟩,
      MultiApiManager.cachedGet_hit V truthy fetch t _ apiId dur method
        path params headers body api v hdur hapi hlast hv htruthy, rfl⟩

/-- C10 amended witness: after replacing the API list with the empty
list, the removed id throws `unknownApi` although its entry is still
cached. -/
theorem claim_C10_amended_witness :
    MultiApiManager.cachedGet natTruthy fetchLen 0
        (MultiApiManager.updateApis s1c [])
        ("a".toList) 5 ("GET".toList) ("/p".toList) [] [] none =
      .error (.unknownApi ("a".toList)) :=
  (claim_C10_amended Nat s1c []).2.1 natTruthy fetchLen 0 ("a".toList) 5
    ("GET".toList) ("/p".toList) [] [] none (by decide) rfl
